import Mathlib

/-!
Verification of the post-management backend in `src/server.js` (the current,
Postgres-backed revision of the server; `src/unnamed/part_000` is an older
revision of the same `server.js` that stored posts in a JSON file).

The embedding models:
* JSON values and a model of the JavaScript `JSON.parse` / `JSON.stringify`
  built-ins, which `mapDbPost` and the update handler use to normalize the
  stored `images` field;
* the stored `posts` row and the API post object, with `mapDbPost`;
* the four HTTP handlers (list/create/update/delete) as functions on an
  explicit database state, together with a reachability relation;
* multer's uploaded-file name generator.

JavaScript-specific behaviours (falsiness of `undefined`/`""`, `x || y`,
`arr[0]` indexing on arbitrary values) are modelled by explicit combinators.
-/

namespace SeansHub

/-- JSON values.  Numbers keep their source lexeme: no claim depends on the
numeric value, only on which constructor a parse produces. -/
inductive Json where
  | null : Json
  | bool (b : Bool) : Json
  | num (lexeme : String) : Json
  | str (s : String) : Json
  | arr (elems : List Json) : Json
  | obj (members : List (String × Json)) : Json

/-- The opening curly brace character (written via its code point). -/
def lbrace : Char := Char.ofNat 123

/-- The closing curly brace character (written via its code point). -/
def rbrace : Char := Char.ofNat 125

/-- JSON insignificant whitespace (RFC 8259 / ECMA-404). -/
def isJsonWs (c : Char) : Bool :=
  c = ' ' || c = '\t' || c = '\n' || c = '\r'

/-- Drop leading JSON whitespace. -/
def skipWs : List Char → List Char
  | [] => []
  | c :: cs => if isJsonWs c then skipWs cs else c :: cs

/-- Value of a hex digit, if any. -/
def hexVal (c : Char) : Option Nat :=
  if '0' ≤ c ∧ c ≤ '9' then some (c.toNat - 48)
  else if 'a' ≤ c ∧ c ≤ 'f' then some (c.toNat - 87)
  else if 'A' ≤ c ∧ c ≤ 'F' then some (c.toNat - 55)
  else none

/-- Parse the body of a JSON string (after the opening quote), returning the
decoded characters and the input following the closing quote.  `\uXXXX`
escapes become the corresponding code point (lone UTF-16 surrogates, which
never occur in the data this program stores, are not paired). -/
def parseStrChars : List Char → Option (List Char × List Char)
  | [] => none
  | '"' :: cs => some ([], cs)
  | '\\' :: 'u' :: h1 :: h2 :: h3 :: h4 :: cs =>
    match hexVal h1, hexVal h2, hexVal h3, hexVal h4 with
    | some a, some b, some c, some d =>
      (parseStrChars cs).map
        (fun p => (Char.ofNat (((a * 16 + b) * 16 + c) * 16 + d) :: p.1, p.2))
    | _, _, _, _ => none
  | '\\' :: e :: cs =>
    let c? : Option Char :=
      if e = '"' then some '"'
      else if e = '\\' then some '\\'
      else if e = '/' then some '/'
      else if e = 'b' then some (Char.ofNat 8)
      else if e = 'f' then some (Char.ofNat 12)
      else if e = 'n' then some '\n'
      else if e = 'r' then some '\r'
      else if e = 't' then some '\t'
      else none
    match c? with
    | some ch => (parseStrChars cs).map (fun p => (ch :: p.1, p.2))
    | none => none
  | c :: cs =>
    if c.toNat < 32 then none
    else (parseStrChars cs).map (fun p => (c :: p.1, p.2))

/-- Longest digit run at the front of the input. -/
def digitSpan (cs : List Char) : List Char × List Char :=
  (cs.takeWhile Char.isDigit, cs.dropWhile Char.isDigit)

/-- Parse an optional JSON fraction part `.digits`; if the input does not
start a well-formed fraction nothing is consumed (the leftover characters
then make the enclosing parse fail, as `JSON.parse` would). -/
def parseFrac : List Char → List Char × List Char
  | '.' :: c :: r =>
    if c.isDigit then
      let (ds, r') := digitSpan (c :: r)
      ('.' :: ds, r')
    else ([], '.' :: c :: r)
  | cs => ([], cs)

/-- Parse an optional JSON exponent part `e[+-]?digits`, with the same
leftover convention as `parseFrac`. -/
def parseExp : List Char → List Char × List Char
  | [] => ([], [])
  | e :: rest =>
    if e = 'e' ∨ e = 'E' then
      match rest with
      | [] => ([], [e])
      | [s] => if s.isDigit then ([e, s], []) else ([], [e, s])
      | s :: c :: r =>
        if (s = '+' ∨ s = '-') ∧ c.isDigit then
          let (ds, r') := digitSpan (c :: r)
          (e :: s :: ds, r')
        else if s.isDigit then
          let (ds, r') := digitSpan (s :: c :: r)
          (e :: ds, r')
        else ([], e :: s :: c :: r)
    else ([], e :: rest)

/-- Parse a JSON number (the input starts with `-` or a digit), keeping the
lexeme.  A leading `0` must stand alone, as in the JSON grammar. -/
def parseNum (cs : List Char) : Option (Json × List Char) :=
  let (sign, cs1) := match cs with
    | '-' :: r => (['-'], r)
    | _ => (([] : List Char), cs)
  match cs1 with
  | [] => none
  | c :: r =>
    if c = '0' then
      let (frac, r2) := parseFrac r
      let (ex, r3) := parseExp r2
      some (.num ⟨sign ++ '0' :: (frac ++ ex)⟩, r3)
    else if c.isDigit then
      let (ds, r1) := digitSpan (c :: r)
      let (frac, r2) := parseFrac r1
      let (ex, r3) := parseExp r2
      some (.num ⟨sign ++ ds ++ frac ++ ex⟩, r3)
    else none

mutual

/-- Parse one JSON value.  The fuel only bounds recursion depth; the caller
passes more fuel than the input length can consume. -/
def parseVal : Nat → List Char → Option (Json × List Char)
  | 0, _ => none
  | fuel + 1, cs =>
    match skipWs cs with
    | [] => none
    | c :: rest =>
      if c = 'n' then
        match rest with
        | 'u' :: 'l' :: 'l' :: r => some (.null, r)
        | _ => none
      else if c = 't' then
        match rest with
        | 'r' :: 'u' :: 'e' :: r => some (.bool true, r)
        | _ => none
      else if c = 'f' then
        match rest with
        | 'a' :: 'l' :: 's' :: 'e' :: r => some (.bool false, r)
        | _ => none
      else if c = '"' then
        match parseStrChars rest with
        | some (s, r) => some (.str ⟨s⟩, r)
        | none => none
      else if c = '[' then
        match skipWs rest with
        | ']' :: r => some (.arr [], r)
        | cs2 => parseArrItems fuel cs2 []
      else if c = lbrace then
        match skipWs rest with
        | [] => none
        | c2 :: r => if c2 = rbrace then some (.obj [], r) else parseObjItems fuel (c2 :: r) []
      else if c = '-' ∨ c.isDigit then parseNum (c :: rest)
      else none

/-- Parse the remaining items of a non-empty JSON array. -/
def parseArrItems : Nat → List Char → List Json → Option (Json × List Char)
  | 0, _, _ => none
  | fuel + 1, cs, acc =>
    match parseVal fuel cs with
    | none => none
    | some (v, rest) =>
      match skipWs rest with
      | ',' :: r => parseArrItems fuel r (v :: acc)
      | ']' :: r => some (.arr (acc.reverse ++ [v]), r)
      | _ => none

/-- Parse the remaining members of a non-empty JSON object. -/
def parseObjItems : Nat → List Char → List (String × Json) → Option (Json × List Char)
  | 0, _, _ => none
  | fuel + 1, cs, acc =>
    match skipWs cs with
    | [] => none
    | c :: rest =>
      if c = '"' then
        match parseStrChars rest with
        | some (k, r1) =>
          match skipWs r1 with
          | ':' :: r2 =>
            match parseVal fuel r2 with
            | some (v, r3) =>
              match skipWs r3 with
              | ',' :: r4 => parseObjItems fuel r4 ((⟨k⟩, v) :: acc)
              | c2 :: r4 =>
                if c2 = rbrace then some (.obj (((⟨k⟩, v) :: acc).reverse), r4) else none
              | [] => none
            | none => none
          | _ => none
        | none => none
      else none

end

/-- Model of the JavaScript `JSON.parse` built-in: `none` models a thrown
`SyntaxError`.  The whole input must be consumed up to trailing whitespace. -/
def jsonParse (s : String) : Option Json :=
  match parseVal (2 * s.data.length + 2) s.data with
  | some (v, rest) => if skipWs rest = [] then some v else none
  | none => none

example : jsonParse "true" = some (.bool true) := rfl
example : jsonParse "null" = some .null := rfl
example : jsonParse "5" = some (.num "5") := rfl
example : jsonParse "[]" = some (.arr []) := rfl
example : jsonParse "[\"a\", \"b\"]" = some (.arr [.str "a", .str "b"]) := rfl
example : jsonParse " [ \"x\" ] " = some (.arr [.str "x"]) := rfl
example : jsonParse "garbage" = none := rfl
example : jsonParse "" = none := rfl
example : jsonParse "[1, 2]" = some (.arr [.num "1", .num "2"]) := rfl
example : jsonParse "01" = none := rfl
example : jsonParse "\"a\\nb\"" = some (.str "a\nb") := rfl
example : jsonParse "-3.5e2" = some (.num "-3.5e2") := rfl
example : jsonParse "tru" = none := rfl

/-- Escape one character as inside a `JSON.stringify` string literal. -/
def escapeJsonChar (c : Char) : List Char :=
  if c = '"' then ['\\', '"']
  else if c = '\\' then ['\\', '\\']
  else if c = '\n' then ['\\', 'n']
  else if c = '\r' then ['\\', 'r']
  else if c = '\t' then ['\\', 't']
  else if c = Char.ofNat 8 then ['\\', 'b']
  else if c = Char.ofNat 12 then ['\\', 'f']
  else if c.toNat < 32 then
    ['\\', 'u', '0', '0',
     (if c.toNat / 16 = 1 then '1' else '0'),
     (if c.toNat % 16 < 10 then Char.ofNat (48 + c.toNat % 16)
      else Char.ofNat (87 + c.toNat % 16))]
  else [c]

/-- Render a JSON string literal body. -/
def stringifyStr (s : String) : List Char :=
  '"' :: (s.data.flatMap escapeJsonChar) ++ ['"']

mutual

/-- Render one JSON value, as `JSON.stringify` does.  Number lexemes are
emitted as stored; this is the one approximation (e.g. a stored lexeme `5.0`
would re-render in JavaScript as `5`), and no theorem below depends on it. -/
def stringifyVal : Json → List Char
  | .null => 'n' :: 'u' :: 'l' :: 'l' :: []
  | .bool true => 't' :: 'r' :: 'u' :: 'e' :: []
  | .bool false => 'f' :: 'a' :: 'l' :: 's' :: 'e' :: []
  | .num lex => lex.data
  | .str s => stringifyStr s
  | .arr xs => '[' :: stringifyItems xs ++ [']']
  | .obj ms => lbrace :: stringifyMembers ms ++ [rbrace]

/-- Render array items, comma separated. -/
def stringifyItems : List Json → List Char
  | [] => []
  | [x] => stringifyVal x
  | x :: y :: xs => stringifyVal x ++ ',' :: stringifyItems (y :: xs)

/-- Render object members, comma separated. -/
def stringifyMembers : List (String × Json) → List Char
  | [] => []
  | [m] => stringifyStr m.1 ++ ':' :: stringifyVal m.2
  | m :: m' :: ms => stringifyStr m.1 ++ ':' :: stringifyVal m.2 ++ ',' :: stringifyMembers (m' :: ms)

end

/-- Model of the JavaScript `JSON.stringify` built-in on JSON values. -/
def jsonStringify (v : Json) : String := ⟨stringifyVal v⟩

/-- JavaScript truthiness of a JSON number, from its lexeme: the value is
zero exactly when every mantissa digit is zero (the exponent is irrelevant,
and JSON numbers cannot be NaN). -/
def numLexemeIsZero (lex : String) : Bool :=
  (lex.data.takeWhile (fun c => c ≠ 'e' ∧ c ≠ 'E')).all
    (fun c => !c.isDigit || c = '0')

/-- JavaScript truthiness of a JSON value (objects and arrays are always
truthy; `""`, `0`, `false` and `null` are falsy). -/
def Json.truthy : Json → Bool
  | .null => false
  | .bool b => b
  | .num lex => !numLexemeIsZero lex
  | .str s => !(s == "")
  | .arr _ => true
  | .obj _ => true

/-- Last binding of a key in parsed object members (on duplicate keys,
`JSON.parse` keeps the last one). -/
def lookupLast (k : String) (ms : List (String × Json)) : Option Json :=
  ms.foldl (fun acc m => if m.1 = k then some m.2 else acc) none

/-- Model of the JavaScript expression `v[0]`: `none` models `undefined`.
Array: first element; string: first character (first UTF-16 unit, which for
the paths this program stores is the first character); object: the member
named `"0"`; other values have no index. -/
def jsIndexZero : Json → Option Json
  | .arr (v :: _) => some v
  | .str s =>
    match s.data with
    | [] => none
    | c :: _ => some (.str (String.singleton c))
  | .obj ms => lookupLast "0" ms
  | _ => none

/-- Model of the JavaScript expression `(v[0] || "")`. -/
def jsIndexOrEmpty (v : Json) : Json :=
  match jsIndexZero v with
  | some w => if w.truthy then w else .str ""
  | none => .str ""

/-- Model of the JavaScript expression `x || fallback` where `x` is a text
column value (`none` models SQL `NULL`, falsy like `""`). -/
def jsOrElse (x : Option String) (fallback : Json) : Json :=
  match x with
  | some s => if s = "" then fallback else .str s
  | none => fallback

/-- JavaScript falsiness of an optional form field (`none` models an absent
field, i.e. `undefined`; the only falsy string is `""`). -/
def jsFalsy : Option String → Bool
  | none => true
  | some s => s == ""

/-- Whitespace for the JavaScript `String.prototype.trim` (the common code
points; rare Unicode space code points never occur in stored rows). -/
def jsIsTrimWs (c : Char) : Bool :=
  c = ' ' || c = '\t' || c = '\n' || c = '\r' ||
  c = Char.ofNat 11 || c = Char.ofNat 12 || c = Char.ofNat 160 ||
  c = Char.ofNat 0xfeff || c = Char.ofNat 0x2028 || c = Char.ofNat 0x2029

/-- Model of `s.trim()`. -/
def jsTrim (s : String) : String :=
  ⟨((s.data.dropWhile jsIsTrimWs).reverse.dropWhile jsIsTrimWs).reverse⟩

example : jsTrim "  a b " = "a b" := rfl
example : jsTrim "   " = "" := rfl

/-- A stored row of the `posts` relation, as the `pg` driver delivers it to
the handlers (`SELECT id, title, category, content, images, image_url,
affiliate_link, created_at, updated_at FROM posts`).  The `images` column is
`jsonb`, so the driver yields the parsed JSON value (`none` models `NULL`);
text columns yield a string or `NULL`; timestamp columns yield a `Date` or
`NULL`, modelled as an abstract `Option Nat` instant (the handlers only
compare and copy these, and render them through the injective ISO 8601
format, which is not modelled). -/
structure DbRow where
  id : Nat
  title : String
  category : Option String
  content : String
  images : Option Json
  image_url : Option String
  affiliate_link : Option String
  created_at : Option Nat
  updated_at : Option Nat

/-- The images-normalization in `mapDbPost` (duplicated inline in the update
handler of `server.js`):
```
let images = [];
if (Array.isArray(row.images)) images = row.images;
else if (typeof row.images === "string" && row.images.trim() !== "")
  try { images = JSON.parse(row.images); } catch (_) { images = []; }
```
Note that a successful parse is kept even when it is not an array. -/
def normalizeImages : Option Json → Json
  | some (Json.arr xs) => Json.arr xs
  | some (Json.str s) =>
    if jsTrim s = "" then Json.arr []
    else
      match jsonParse s with
      | some v => v
      | none => Json.arr []
  | _ => Json.arr []

/-- The API-form post object built by `mapDbPost`.  `images` and `imageUrl`
are dynamically typed in JavaScript, hence `Json` here; `date`/`updatedAt`
carry the timestamp that the code renders as an ISO 8601 string. -/
structure ApiPost where
  id : Nat
  title : String
  category : String
  content : String
  images : Json
  imageUrl : Json
  affiliateLink : String
  date : Option Nat
  updatedAt : Option Nat

/-- `mapDbPost` from `server.js`: normalization of a stored row into the API
post object.  (`row.date` is `undefined` for every row these queries select,
so `created_at || row.date` is just `created_at`; a `Date` object is always
truthy, so the `createdAt ? ... : null` conditional is `Option.map` of the
rendering.) -/
def mapDbPost (row : DbRow) : ApiPost :=
  let images := normalizeImages row.images
  { id := row.id
    title := row.title
    category := row.category.getD ""
    content := row.content
    images := images
    imageUrl := jsOrElse row.image_url (jsIndexOrEmpty images)
    affiliateLink := row.affiliate_link.getD ""
    date := row.created_at
    updatedAt := row.updated_at }

/-- Server configuration: `ADMIN_PASSWORD` from the environment (`none`
models an unset variable, i.e. `undefined`). -/
structure Config where
  adminPassword : Option String

/-- A file stored by multer before the handler runs; `filename` is the name
its `filename` callback generated. -/
structure UploadedFile where
  filename : String

/-- A multipart mutation request (create and update have the same shape):
the body fields (`none` models an absent field) and the uploaded files. -/
structure MutReq where
  adminPassword : Option String
  title : Option String
  category : Option String
  content : Option String
  affiliateLink : Option String
  files : List UploadedFile

/-- The `/uploads/...` paths recorded for the uploaded files:
`(req.files || []).map((file) => `/uploads/${file.filename}`)`. -/
def newImagePaths (req : MutReq) : List String :=
  req.files.map (fun f => "/uploads/" ++ f.filename)

/-- Database state.  `rows` is the `posts` relation; `nextId` and
`everAssigned` model the storage-assigned serial primary key.  Modelled from
the spec: the table schema is not part of the source; per §3/§6 the id is
"assigned by storage, monotonically increasing" (Postgres `serial`), and
`created_at` defaults to the insertion time.  `everAssigned` is a history
variable recording every id the serial ever produced, used only to state
uniqueness across deletions. -/
structure DbState where
  rows : List DbRow
  nextId : Nat
  everAssigned : List Nat

/-- The empty database, with the serial at its start value. -/
def initState : DbState := { rows := [], nextId := 1, everAssigned := [] }

/-- Response of `POST /api/posts`. -/
inductive CreateResp where
  | unauthorized
  | badRequest
  | ok (post : ApiPost)

/-- Response of `PUT /api/posts/:id`. -/
inductive UpdateResp where
  | unauthorized
  | badRequest
  | notFound
  | ok (post : ApiPost)

/-- Response of `DELETE /api/posts/:id`. -/
inductive DeleteResp where
  | unauthorized
  | notFound
  | ok

/-- `GET /api/posts`: `ORDER BY created_at DESC`.  Postgres sorts `DESC`
with `NULLS FIRST`, so a `NULL` timestamp sorts before every other; the row
relation itself is unordered, so the query returns some sorted permutation
of the rows (reachable rows never have a `NULL` timestamp). -/
def caGeB (a b : DbRow) : Bool :=
  match a.created_at, b.created_at with
  | none, _ => true
  | some _, none => false
  | some x, some y => y ≤ x

/-- Insert a row into a list sorted by `caGeB`. -/
def insertDesc (r : DbRow) : List DbRow → List DbRow
  | [] => [r]
  | x :: xs => if caGeB r x then r :: x :: xs else x :: insertDesc r xs

/-- Sort rows by `created_at` descending (insertion sort). -/
def sortDesc : List DbRow → List DbRow
  | [] => []
  | r :: rs => insertDesc r (sortDesc rs)

/-- Handler of `GET /api/posts` (the success path; a storage failure would
return 500 and is outside the state model). -/
def listHandler (s : DbState) : List ApiPost :=
  (sortDesc s.rows).map mapDbPost

/-- The row the create handler inserts (`INSERT INTO posts (title, category,
content, images, image_url, affiliate_link) VALUES ...`), with the id and
creation timestamp filled in by storage.  The `images` parameter is
`JSON.stringify(imageUrls)` stored in the `jsonb` column, i.e. the array
itself; `mainImage` is `imageUrls[0] || ""`, which equals `headD ""` (an
absent head gives `""`, and a present head is either `""` itself or a
truthy nonempty string). -/
def createdRow (now : Nat) (req : MutReq) (idv : Nat) : DbRow :=
  { id := idv
    title := req.title.getD ""
    category := some (req.category.getD "")
    content := req.content.getD ""
    images := some (Json.arr ((newImagePaths req).map Json.str))
    image_url := some ((newImagePaths req).headD "")
    affiliate_link := some (req.affiliateLink.getD "")
    created_at := some now
    updated_at := none }

/-- Handler of `POST /api/posts`.  Auth (`adminPassword !== ADMIN_PASSWORD`)
first, then validation (`!title || !content`), then
`INSERT ... RETURNING ...` and `mapDbPost` of the returned row. -/
def createHandler (cfg : Config) (now : Nat) (req : MutReq) (s : DbState) :
    CreateResp × DbState :=
  if req.adminPassword ≠ cfg.adminPassword then (.unauthorized, s)
  else if jsFalsy req.title || jsFalsy req.content then (.badRequest, s)
  else
    (.ok (mapDbPost (createdRow now req s.nextId)),
     { rows := s.rows ++ [createdRow now req s.nextId]
       nextId := s.nextId + 1
       everAssigned := s.everAssigned ++ [s.nextId] })

/-- `finalImages` of the update handler: replace when new images were
uploaded, else keep the (normalized) existing ones. -/
def updFinalImages (req : MutReq) (existing : DbRow) : Json :=
  if (newImagePaths req).isEmpty then normalizeImages existing.images
  else Json.arr ((newImagePaths req).map Json.str)

/-- `finalImageUrl` of the update handler:
`newImageUrls[0]` when new images were uploaded, else
`existing.image_url || (existingImages[0] || "")`. -/
def updFinalImageUrl (req : MutReq) (existing : DbRow) : Json :=
  if (newImagePaths req).isEmpty then
    jsOrElse existing.image_url (jsIndexOrEmpty (normalizeImages existing.images))
  else Json.str ((newImagePaths req).headD "")

/-- How the driver renders the `image_url` parameter for its text column:
strings pass through (the only case arising from reachable states); other
values document the driver's serialization of exotic values and are not
relied upon by any theorem. -/
def jsToText : Json → Option String
  | .null => none
  | .str s => some s
  | .bool b => some (if b then "true" else "false")
  | .num lex => some lex
  | v => some (jsonStringify v)

/-- The column assignments of the `UPDATE posts SET ...` statement, applied
to one matched row (`id` and `created_at` are not in the `SET` list). -/
def applyUpdate (req : MutReq) (now : Nat) (existing r : DbRow) : DbRow :=
  { r with
    title := req.title.getD ""
    category := some (req.category.getD "")
    content := req.content.getD ""
    affiliate_link := some (req.affiliateLink.getD "")
    images := some (updFinalImages req existing)
    image_url := jsToText (updFinalImageUrl req existing)
    updated_at := some now }

/-- Handler of `PUT /api/posts/:id`.  Auth, validation, `SELECT ... WHERE
id = $1` (404 when empty), then `UPDATE ... WHERE id = $8 RETURNING ...`
and `mapDbPost` of the returned row.  The `:id` parameter is modelled after
its `Number(...)` conversion (a non-numeric parameter, `NaN`, matches no
row and is out of the modelled claims). -/
def updateHandler (cfg : Config) (now : Nat) (postId : Nat) (req : MutReq)
    (s : DbState) : UpdateResp × DbState :=
  if req.adminPassword ≠ cfg.adminPassword then (.unauthorized, s)
  else if jsFalsy req.title || jsFalsy req.content then (.badRequest, s)
  else
    match s.rows.find? (fun r => r.id == postId) with
    | none => (.notFound, s)
    | some existing =>
      (.ok (mapDbPost (applyUpdate req now existing existing)),
       { s with
         rows := s.rows.map
           (fun r => if r.id == postId then applyUpdate req now existing r else r) })

/-- Handler of `DELETE /api/posts/:id`.  Auth, then `DELETE ... WHERE
id = $1 RETURNING id`; 404 when no row matched. -/
def deleteHandler (cfg : Config) (postId : Nat) (adminPassword : Option String)
    (s : DbState) : DeleteResp × DbState :=
  if adminPassword ≠ cfg.adminPassword then (.unauthorized, s)
  else if (s.rows.filter (fun r => r.id == postId)).isEmpty then (.notFound, s)
  else (.ok, { s with rows := s.rows.filter (fun r => !(r.id == postId)) })

/-- One API call, as a transition between database states (the list call
does not change the state).  The configuration, clock and request are free
in each step. -/
inductive Step : DbState → DbState → Prop where
  | create (cfg : Config) (now : Nat) (req : MutReq) (s : DbState) :
      Step s (createHandler cfg now req s).2
  | update (cfg : Config) (now : Nat) (postId : Nat) (req : MutReq) (s : DbState) :
      Step s (updateHandler cfg now postId req s).2
  | del (cfg : Config) (postId : Nat) (pwd : Option String) (s : DbState) :
      Step s (deleteHandler cfg postId pwd s).2

/-- States reachable from the empty database through API calls. -/
inductive Reach : DbState → Prop where
  | init : Reach initState
  | step {s s' : DbState} : Reach s → Step s s' → Reach s'

/-- Well-formedness of a stored row, as create/update write them: the
`images` column holds a JSON array of strings, the `image_url` column holds
its first element (or `""`), and the creation timestamp is set. -/
def RowWf (r : DbRow) : Prop :=
  (∃ xs : List String,
      r.images = some (Json.arr (xs.map Json.str)) ∧
      r.image_url = some (xs.headD "")) ∧
  r.created_at.isSome = true

/-- Invariant of reachable database states: all rows are well formed, the
serial exceeds every id it ever produced, and every stored id was produced
by the serial. -/
def StateInv (s : DbState) : Prop :=
  (∀ r ∈ s.rows, RowWf r) ∧
  (∀ i ∈ s.everAssigned, i < s.nextId) ∧
  (∀ r ∈ s.rows, r.id ∈ s.everAssigned)

theorem normalizeImages_arr (xs : List Json) :
    normalizeImages (some (Json.arr xs)) = Json.arr xs := rfl

/-- The inserted row is well formed. -/
theorem createdRow_wf (now : Nat) (req : MutReq) (idv : Nat) :
    RowWf (createdRow now req idv) :=
  ⟨⟨newImagePaths req, rfl, rfl⟩, rfl⟩

/-- On a well-formed pair of columns, the fallback chain
`image_url || (images[0] || "")` evaluates to `images.headD ""` (stated in
the `head?.getD` normal form). -/
theorem jsOrElse_headD (xs : List String) :
    jsOrElse (some (xs.head?.getD "")) (jsIndexOrEmpty (Json.arr (xs.map Json.str))) =
      Json.str (xs.head?.getD "") := by
  cases xs with
  | nil => rfl
  | cons x t =>
    by_cases hx : x = ""
    · subst hx
      rfl
    · simp [jsOrElse, hx]

theorem mapDbPost_of_wf (r : DbRow) (xs : List String)
    (himg : r.images = some (Json.arr (xs.map Json.str)))
    (hurl : r.image_url = some (xs.headD "")) :
    (mapDbPost r).images = Json.arr (xs.map Json.str) ∧
    (mapDbPost r).imageUrl = Json.str (xs.headD "") := by
  constructor
  · simp [mapDbPost, himg, normalizeImages]
  · simp [mapDbPost, himg, hurl, normalizeImages, jsOrElse_headD]

/-- The columns written by the `UPDATE` statement keep a row well formed. -/
theorem applyUpdate_wf (req : MutReq) (now : Nat) (existing r : DbRow)
    (hex : RowWf existing) (hr : RowWf r) :
    RowWf (applyUpdate req now existing r) := by
  obtain ⟨⟨xs, hi, hu⟩, _⟩ := hex
  constructor
  · by_cases hne : (newImagePaths req).isEmpty
    · exact ⟨xs,
        by simp [applyUpdate, updFinalImages, hne, hi, normalizeImages],
        by simp [applyUpdate, updFinalImageUrl, hne, hi, hu, normalizeImages,
                 jsOrElse_headD, jsToText]⟩
    · refine ⟨newImagePaths req,
        by simp [applyUpdate, updFinalImages, hne],
        by simp [applyUpdate, updFinalImageUrl, hne, jsToText]⟩
  · simpa [applyUpdate] using hr.2

theorem createHandler_inv (cfg : Config) (now : Nat) (req : MutReq) (s : DbState)
    (h : StateInv s) : StateInv (createHandler cfg now req s).2 := by
  unfold createHandler
  split
  · exact h
  split
  · exact h
  refine ⟨?_, ?_, ?_⟩
  · intro r hr
    rcases List.mem_append.mp hr with hold | hnew
    · exact h.1 r hold
    · rcases List.mem_singleton.mp hnew with rfl
      exact createdRow_wf now req s.nextId
  · intro i hi
    rcases List.mem_append.mp hi with hold | hnew
    · exact Nat.lt_succ_of_lt (h.2.1 i hold)
    · rcases List.mem_singleton.mp hnew with rfl
      exact Nat.lt_succ_self _
  · intro r hr
    rcases List.mem_append.mp hr with hold | hnew
    · exact List.mem_append_left _ (h.2.2 r hold)
    · rcases List.mem_singleton.mp hnew with rfl
      exact List.mem_append_right _ (List.mem_singleton.mpr rfl)

theorem updateHandler_inv (cfg : Config) (now : Nat) (postId : Nat) (req : MutReq)
    (s : DbState) (h : StateInv s) : StateInv (updateHandler cfg now postId req s).2 := by
  unfold updateHandler
  split
  · exact h
  split
  · exact h
  split
  · exact h
  case _ existing hfind =>
  have hexmem : existing ∈ s.rows := List.mem_of_find?_eq_some hfind
  have hexwf : RowWf existing := h.1 existing hexmem
  refine ⟨?_, h.2.1, ?_⟩
  · intro r' hr'
    rcases List.mem_map.mp hr' with ⟨r, hrmem, rfl⟩
    split
    · exact applyUpdate_wf req now existing r hexwf (h.1 r hrmem)
    · exact h.1 r hrmem
  · intro r' hr'
    rcases List.mem_map.mp hr' with ⟨r, hrmem, rfl⟩
    have : (if r.id == postId then applyUpdate req now existing r else r).id = r.id := by
      split <;> simp [applyUpdate]
    rw [this]
    exact h.2.2 r hrmem

theorem deleteHandler_inv (cfg : Config) (postId : Nat) (pwd : Option String)
    (s : DbState) (h : StateInv s) : StateInv (deleteHandler cfg postId pwd s).2 := by
  unfold deleteHandler
  split
  · exact h
  split
  · exact h
  refine ⟨?_, h.2.1, ?_⟩
  · intro r hr
    exact h.1 r (List.mem_of_mem_filter hr)
  · intro r hr
    exact h.2.2 r (List.mem_of_mem_filter hr)

/-- Every reachable state satisfies the invariant. -/
theorem reach_inv {s : DbState} (h : Reach s) : StateInv s := by
  induction h with
  | init =>
    exact ⟨by simp [initState], by simp [initState], by simp [initState]⟩
  | step _ hstep ih =>
    cases hstep with
    | create cfg now req => exact createHandler_inv cfg now req _ ih
    | update cfg now postId req => exact updateHandler_inv cfg now postId req _ ih
    | del cfg postId pwd => exact deleteHandler_inv cfg postId pwd _ ih

/-- Sorting relation facts for the list query. -/
theorem caGeB_total (a b : DbRow) : caGeB a b = true ∨ caGeB b a = true := by
  unfold caGeB
  rcases a.created_at with _ | x <;> rcases b.created_at with _ | y <;> simp
  exact Nat.le_total y x

theorem caGeB_trans {a b c : DbRow} :
    caGeB a b = true → caGeB b c = true → caGeB a c = true := by
  unfold caGeB
  rcases a.created_at with _ | x <;> rcases b.created_at with _ | y <;>
    rcases c.created_at with _ | z <;> simp
  omega

theorem insertDesc_perm (r : DbRow) (l : List DbRow) :
    (insertDesc r l).Perm (r :: l) := by
  induction l with
  | nil => exact List.Perm.refl _
  | cons x xs ih =>
    unfold insertDesc
    split
    · exact List.Perm.refl _
    · exact ((ih.cons x).trans (List.Perm.swap r x xs))

theorem sortDesc_perm (l : List DbRow) : (sortDesc l).Perm l := by
  induction l with
  | nil => exact List.Perm.refl _
  | cons r rs ih =>
    exact (insertDesc_perm r (sortDesc rs)).trans (ih.cons r)

theorem mem_insertDesc {r y : DbRow} {l : List DbRow} (h : y ∈ insertDesc r l) :
    y = r ∨ y ∈ l := by
  have := (insertDesc_perm r l).mem_iff.mp h
  simpa using this

theorem insertDesc_sorted (r : DbRow) (l : List DbRow)
    (h : l.Pairwise (fun a b => caGeB a b = true)) :
    (insertDesc r l).Pairwise (fun a b => caGeB a b = true) := by
  induction l with
  | nil => simp [insertDesc]
  | cons x xs ih =>
    rcases List.pairwise_cons.mp h with ⟨hx, hxs⟩
    unfold insertDesc
    split
    case isTrue hge =>
      refine List.pairwise_cons.mpr ⟨?_, h⟩
      intro y hy
      rcases List.mem_cons.mp hy with rfl | hy'
      · exact hge
      · exact caGeB_trans hge (hx y hy')
    case isFalse hlt =>
      refine List.pairwise_cons.mpr ⟨?_, ih hxs⟩
      intro y hy
      rcases mem_insertDesc hy with rfl | hy'
      · rcases caGeB_total y x with hc | hc
        · exact absurd hc hlt
        · exact hc
      · exact hx y hy'

theorem sortDesc_sorted (l : List DbRow) :
    (sortDesc l).Pairwise (fun a b => caGeB a b = true) := by
  induction l with
  | nil => simp [sortDesc]
  | cons r rs ih => exact insertDesc_sorted r (sortDesc rs) ih

/-! ### The multer filename generator

`filename: (req, file, cb) => { const uniqueSuffix = Date.now() + "-" +
Math.round(Math.random() * 1e9); const ext = path.extname(file.originalname);
cb(null, file.fieldname + "-" + uniqueSuffix + ext); }`

`Date.now()` and `Math.round(Math.random() * 1e9)` are natural numbers which
JavaScript string concatenation renders in decimal. -/

/-- The decimal digit character of a digit value (values `≥ 9` all render as
`9`; the function is only used on `d % 10`). -/
def digitChar (d : Nat) : Char :=
  if d = 0 then '0' else if d = 1 then '1' else if d = 2 then '2'
  else if d = 3 then '3' else if d = 4 then '4' else if d = 5 then '5'
  else if d = 6 then '6' else if d = 7 then '7' else if d = 8 then '8'
  else '9'

/-- Digit accumulator for decimal rendering; the fuel dominates the number
of digits (`fuel > n` suffices since `n / 10 < n`). -/
def natDigitsAux : Nat → Nat → List Char → List Char
  | 0, _, acc => acc
  | fuel + 1, n, acc =>
    if n < 10 then digitChar n :: acc
    else natDigitsAux fuel (n / 10) (digitChar (n % 10) :: acc)

/-- Decimal digits (most significant first) of a natural number. -/
def digitsOf (n : Nat) : List Char := natDigitsAux (n + 1) n []

/-- Model of the JavaScript rendering `String(n)` of a natural number. -/
def natToString (n : Nat) : String := ⟨digitsOf n⟩

example : natToString 0 = "0" := rfl
example : natToString 7 = "7" := rfl
example : natToString 123 = "123" := rfl
example : natToString 1700000000000 = "1700000000000" := rfl

theorem digitChar_isDigit (d : Nat) : (digitChar d).isDigit = true := by
  unfold digitChar
  split_ifs <;> decide

theorem digitChar_toNat {d : Nat} (h : d < 10) : (digitChar d).toNat = 48 + d := by
  interval_cases d <;> rfl

theorem natDigitsAux_fuelIrrel :
    ∀ n f1 f2 acc, n < f1 → n < f2 → natDigitsAux f1 n acc = natDigitsAux f2 n acc := by
  intro n
  induction n using Nat.strong_induction_on with
  | _ n ih =>
    intro f1 f2 acc h1 h2
    match f1, f2 with
    | f1 + 1, f2 + 1 =>
      by_cases hn : n < 10
      · simp [natDigitsAux, hn]
      · have hd : n / 10 < n := Nat.div_lt_self (by omega) (by omega)
        simp only [natDigitsAux, hn, if_false]
        exact ih (n / 10) hd f1 f2 _ (by omega) (by omega)

theorem natDigitsAux_acc :
    ∀ n acc, natDigitsAux (n + 1) n acc = digitsOf n ++ acc := by
  intro n
  induction n using Nat.strong_induction_on with
  | _ n ih =>
    intro acc
    by_cases hn : n < 10
    · simp [digitsOf, natDigitsAux, hn]
    · have hd : n / 10 < n := Nat.div_lt_self (by omega) (by omega)
      have e1 : ∀ a : List Char,
          natDigitsAux (n + 1) n a = natDigitsAux n (n / 10) (digitChar (n % 10) :: a) := by
        intro a
        simp [natDigitsAux, hn]
      have e2 : ∀ a : List Char,
          natDigitsAux n (n / 10) a = natDigitsAux (n / 10 + 1) (n / 10) a := by
        intro a
        exact natDigitsAux_fuelIrrel (n / 10) n (n / 10 + 1) a (by omega) (by omega)
      have e3 : digitsOf n = digitsOf (n / 10) ++ [digitChar (n % 10)] := by
        show natDigitsAux (n + 1) n [] = _
        rw [e1, e2, ih (n / 10) hd [digitChar (n % 10)]]
      rw [e1, e2, ih (n / 10) hd (digitChar (n % 10) :: acc), e3]
      simp

theorem digitsOf_lt {n : Nat} (h : n < 10) : digitsOf n = [digitChar n] := by
  simp [digitsOf, natDigitsAux, h]

theorem digitsOf_ge {n : Nat} (h : 10 ≤ n) :
    digitsOf n = digitsOf (n / 10) ++ [digitChar (n % 10)] := by
  show natDigitsAux (n + 1) n [] = _
  have e1 : natDigitsAux (n + 1) n [] = natDigitsAux n (n / 10) [digitChar (n % 10)] := by
    simp [natDigitsAux, Nat.not_lt.mpr h]
  have hd : n / 10 < n := Nat.div_lt_self (by omega) (by omega)
  rw [e1, natDigitsAux_fuelIrrel (n / 10) n (n / 10 + 1) _ hd (by omega),
    natDigitsAux_acc (n / 10) [digitChar (n % 10)]]

theorem digitsOf_val :
    ∀ n, List.foldl (fun a c => a * 10 + (c.toNat - 48)) 0 (digitsOf n) = n := by
  intro n
  induction n using Nat.strong_induction_on with
  | _ n ih =>
    by_cases hn : n < 10
    · rw [digitsOf_lt hn]
      simp [digitChar_toNat hn]
    · have hd : n / 10 < n := Nat.div_lt_self (by omega) (by omega)
      rw [digitsOf_ge (by omega), List.foldl_append, ih (n / 10) hd]
      simp [digitChar_toNat (Nat.mod_lt n (by omega))]
      omega

theorem digitsOf_inj {m n : Nat} (h : digitsOf m = digitsOf n) : m = n := by
  have hm := digitsOf_val m
  rw [h, digitsOf_val n] at hm
  exact hm.symm

theorem digitsOf_digits : ∀ n, ∀ c ∈ digitsOf n, c.isDigit = true := by
  intro n
  induction n using Nat.strong_induction_on with
  | _ n ih =>
    intro c hc
    by_cases hn : n < 10
    · rw [digitsOf_lt hn] at hc
      rcases List.mem_singleton.mp hc with rfl
      exact digitChar_isDigit n
    · rw [digitsOf_ge (by omega)] at hc
      rcases List.mem_append.mp hc with h1 | h2
      · exact ih (n / 10) (Nat.div_lt_self (by omega) (by omega)) c h1
      · rcases List.mem_singleton.mp h2 with rfl
        exact digitChar_isDigit _

/-- The portion of `p` after the last `/` (Node's posix basename, for the
separator handling `extname` needs). -/
def basenameOf (p : List Char) : List Char :=
  (p.reverse.takeWhile (fun c => c ≠ '/')).reverse

/-- The portion of `b` after its last `.`. -/
def afterLastDot (b : List Char) : List Char :=
  (b.reverse.takeWhile (fun c => c ≠ '.')).reverse

/-- Model of Node's `path.extname` on the characters of a path: the suffix
of the basename from its last `.`, except that a basename with no dot, a
dotfile (single leading dot and no other), and `..` have no extension. -/
def extnameChars (p : List Char) : List Char :=
  if basenameOf p = ['.', '.'] then []
  else if ('.' : Char) ∈ basenameOf p then
    if ('.' :: afterLastDot (basenameOf p)).length = (basenameOf p).length then []
    else '.' :: afterLastDot (basenameOf p)
  else []

/-- Model of Node's `path.extname`. -/
def extname (p : String) : String := ⟨extnameChars p.data⟩

example : extname "a.png" = ".png" := rfl
example : extname "photo.JPG" = ".JPG" := rfl
example : extname "archive.tar.gz" = ".gz" := rfl
example : extname "noext" = "" := rfl
example : extname ".bashrc" = "" := rfl
example : extname "a." = "." := rfl
example : extname "dir/file.txt" = ".txt" := rfl

/-- The generated upload filename:
`file.fieldname + "-" + Date.now() + "-" + Math.round(Math.random()*1e9) + ext`. -/
def genFilename (fieldname : String) (nowMs rnd : Nat) (originalname : String) : String :=
  fieldname ++ "-" ++ natToString nowMs ++ "-" ++ natToString rnd ++ extname originalname

example : genFilename "images" 1700000000000 123456789 "a.png"
    = "images-1700000000000-123456789.png" := rfl

theorem extnameChars_shape (p : List Char) :
    extnameChars p = [] ∨ ∃ t, extnameChars p = '.' :: t := by
  unfold extnameChars
  split_ifs
  · exact Or.inl rfl
  · exact Or.inl rfl
  · exact Or.inr ⟨_, rfl⟩
  · exact Or.inl rfl

/-- Splitting an unambiguous concatenation at a separator absent from the
prefixes. -/
theorem append_sep_inj (sep : Char) :
    ∀ (a1 a2 b1 b2 : List Char),
      (∀ c ∈ a1, c ≠ sep) → (∀ c ∈ a2, c ≠ sep) →
      a1 ++ sep :: b1 = a2 ++ sep :: b2 → a1 = a2 ∧ b1 = b2 := by
  intro a1
  induction a1 with
  | nil =>
    intro a2 b1 b2 _ h2 h
    cases a2 with
    | nil => simpa using h
    | cons y u =>
      exfalso
      have hy : sep = y := by simpa using congrArg List.head? h
      exact h2 y (List.mem_cons_self y u) hy.symm
  | cons x t ih =>
    intro a2 b1 b2 h1 h2 h
    cases a2 with
    | nil =>
      exfalso
      have hx : x = sep := by simpa using congrArg List.head? h
      exact h1 x (List.mem_cons_self x t) hx
    | cons y u =>
      rcases List.cons.injEq x (t ++ sep :: b1) y (u ++ sep :: b2) ▸ h with h'
      have hxy : x = y := by simpa using congrArg List.head? h
      have htail : t ++ sep :: b1 = u ++ sep :: b2 := by
        have := congrArg List.tail h
        simpa using this
      rcases ih u b1 b2 (fun c hc => h1 c (List.mem_cons_of_mem x hc))
        (fun c hc => h2 c (List.mem_cons_of_mem y hc)) htail with ⟨hau, hb⟩
      exact ⟨by rw [hxy, hau], hb⟩

/-- Splitting a concatenation of a digit run with a block that does not
start with a digit. -/
theorem append_digitrun_inj :
    ∀ (a1 a2 b1 b2 : List Char),
      (∀ c ∈ a1, c.isDigit = true) → (∀ c ∈ a2, c.isDigit = true) →
      (∀ c, b1.head? = some c → c.isDigit = false) →
      (∀ c, b2.head? = some c → c.isDigit = false) →
      a1 ++ b1 = a2 ++ b2 → a1 = a2 ∧ b1 = b2 := by
  intro a1
  induction a1 with
  | nil =>
    intro a2 b1 b2 _ h2 hb1 _ h
    cases a2 with
    | nil => simpa using h
    | cons y u =>
      exfalso
      have hb : b1 = y :: (u ++ b2) := by simpa using h
      have hy : b1.head? = some y := by rw [hb]; rfl
      have := hb1 y hy
      rw [h2 y (List.mem_cons_self y u)] at this
      exact Bool.noConfusion this
  | cons x t ih =>
    intro a2 b1 b2 h1 h2 hb1 hb2 h
    cases a2 with
    | nil =>
      exfalso
      have hb : b2 = x :: (t ++ b1) := by simpa using h.symm
      have hx : b2.head? = some x := by rw [hb]; rfl
      have := hb2 x hx
      rw [h1 x (List.mem_cons_self x t)] at this
      exact Bool.noConfusion this
    | cons y u =>
      have hxy : x = y := by simpa using congrArg List.head? h
      have htail : t ++ b1 = u ++ b2 := by
        have := congrArg List.tail h
        simpa using this
      rcases ih u b1 b2 (fun c hc => h1 c (List.mem_cons_of_mem x hc))
        (fun c hc => h2 c (List.mem_cons_of_mem y hc)) hb1 hb2 htail with ⟨hau, hb⟩
      exact ⟨by rw [hxy, hau], hb⟩

/-- Distinct (timestamp, random) pairs always produce distinct generated
filenames, whatever the original filenames were. -/
theorem genFilename_inj (f : String) (t1 r1 : Nat) (o1 : String)
    (t2 r2 : Nat) (o2 : String) (hne : (t1, r1) ≠ (t2, r2)) :
    genFilename f t1 r1 o1 ≠ genFilename f t2 r2 o2 := by
  intro h
  have hd := congrArg String.data h
  simp only [genFilename, String.data_append, List.append_assoc] at hd
  simp only [List.singleton_append] at hd
  have hd2 : digitsOf t1 ++ '-' :: (digitsOf r1 ++ (extname o1).data) =
      digitsOf t2 ++ '-' :: (digitsOf r2 ++ (extname o2).data) := by
    have := List.append_cancel_left hd
    simpa [natToString] using this
  have hdigdash : ∀ n, ∀ c ∈ digitsOf n, c ≠ '-' := by
    intro n c hc hceq
    have := digitsOf_digits n c hc
    rw [hceq] at this
    exact Bool.noConfusion this
  rcases append_sep_inj '-' _ _ _ _ (hdigdash t1) (hdigdash t2) hd2 with ⟨ht, hrest⟩
  have hexthead : ∀ o : String, ∀ c, ((extname o).data).head? = some c → c.isDigit = false := by
    intro o c hc
    rcases extnameChars_shape o.data with hnil | ⟨t, hcons⟩
    · rw [show (extname o).data = extnameChars o.data from rfl, hnil] at hc
      exact Option.noConfusion hc
    · rw [show (extname o).data = extnameChars o.data from rfl, hcons] at hc
      simp at hc
      rw [← hc]
      decide
  rcases append_digitrun_inj _ _ _ _ (digitsOf_digits r1) (digitsOf_digits r2)
    (hexthead o1) (hexthead o2) hrest with ⟨hr, _⟩
  exact hne (by rw [digitsOf_inj ht, digitsOf_inj hr])

/-! ### The claims -/

/-- The invariant claimed of every returned post object: `images` is an
array and `imageUrl` is its first element, or `""` when it is empty. -/
def PostImgInv (p : ApiPost) : Prop :=
  (∀ v vs, p.images = Json.arr (v :: vs) → p.imageUrl = v) ∧
  (p.images = Json.arr [] → p.imageUrl = Json.str "")

theorem postImgInv_of_wf (r : DbRow) (h : RowWf r) : PostImgInv (mapDbPost r) := by
  obtain ⟨⟨xs, hi, hu⟩, _⟩ := h
  obtain ⟨him, hiu⟩ := mapDbPost_of_wf r xs hi hu
  constructor
  · intro v vs hvv
    rw [him] at hvv
    cases xs with
    | nil => simp at hvv
    | cons x t =>
      injection hvv with h1
      rw [List.map_cons] at h1
      injection h1 with hx _
      rw [hiu, ← hx]
      rfl
  · intro h0
    rw [him] at h0
    cases xs with
    | nil => exact hiu
    | cons x t =>
      injection h0 with h1
      simp at h1

/-- Demo fixtures used by the witnesses. -/
def cfgDemo : Config := ⟨some "pw"⟩

def reqCreateA : MutReq :=
  { adminPassword := some "pw", title := some "A", category := none,
    content := some "B", affiliateLink := none,
    files := [⟨"images-1-2.png"⟩] }

def stateA : DbState := (createHandler cfgDemo 100 reqCreateA initState).2

theorem reachA : Reach stateA :=
  Reach.step Reach.init (Step.create cfgDemo 100 reqCreateA initState)

/-- C1: for every reachable state, every post object returned by the list,
create, or update operations has `imageUrl` equal to `images[0]` when its
images list is non-empty, and `imageUrl = ""` when it is empty. -/
theorem claim_C1 (s : DbState) (hs : Reach s) :
    (∀ p ∈ listHandler s, PostImgInv p) ∧
    (∀ cfg now req p s', createHandler cfg now req s = (.ok p, s') → PostImgInv p) ∧
    (∀ cfg now postId req p s',
        updateHandler cfg now postId req s = (.ok p, s') → PostImgInv p) := by
  have hinv := reach_inv hs
  refine ⟨?_, ?_, ?_⟩
  · intro p hp
    rcases List.mem_map.mp hp with ⟨r, hr, rfl⟩
    exact postImgInv_of_wf r (hinv.1 r ((sortDesc_perm s.rows).subset hr))
  · intro cfg now req p s' h
    unfold createHandler at h
    split at h
    · exact CreateResp.noConfusion (congrArg Prod.fst h)
    split at h
    · exact CreateResp.noConfusion (congrArg Prod.fst h)
    have hp : mapDbPost (createdRow now req s.nextId) = p :=
      CreateResp.ok.inj (congrArg Prod.fst h)
    exact hp ▸ postImgInv_of_wf _ (createdRow_wf now req s.nextId)
  · intro cfg now postId req p s' h
    unfold updateHandler at h
    split at h
    · exact UpdateResp.noConfusion (congrArg Prod.fst h)
    split at h
    · exact UpdateResp.noConfusion (congrArg Prod.fst h)
    split at h
    · exact UpdateResp.noConfusion (congrArg Prod.fst h)
    case _ existing hfind =>
    have hexwf := hinv.1 existing (List.mem_of_find?_eq_some hfind)
    have hp : mapDbPost (applyUpdate req now existing existing) = p :=
      UpdateResp.ok.inj (congrArg Prod.fst h)
    exact hp ▸ postImgInv_of_wf _ (applyUpdate_wf req now existing existing hexwf hexwf)

/-- C1 witness: the invariant, evaluated on the post of a concrete one-post
reachable state. -/
theorem claim_C1_witness : PostImgInv (mapDbPost (createdRow 100 reqCreateA 1)) :=
  (claim_C1 stateA reachA).1 (mapDbPost (createdRow 100 reqCreateA 1))
    (by rw [show listHandler stateA = [mapDbPost (createdRow 100 reqCreateA 1)] from rfl]
        exact List.mem_singleton.mpr rfl)

/-- C2: for every reachable state and every valid create request (title and
content set, correct admin secret), the new post's id differs from every id
the storage ever assigned and is at least every previously assigned id, and
the post appears in a subsequent list call. -/
theorem claim_C2 (s : DbState) (hs : Reach s) (cfg : Config) (now : Nat) (req : MutReq)
    (hauth : req.adminPassword = cfg.adminPassword)
    (htitle : jsFalsy req.title = false) (hcontent : jsFalsy req.content = false) :
    ∃ p s', createHandler cfg now req s = (.ok p, s') ∧
      p.id ∉ s.everAssigned ∧ (∀ i ∈ s.everAssigned, i ≤ p.id) ∧
      p ∈ listHandler s' := by
  have hinv := reach_inv hs
  have h1 : ¬(req.adminPassword ≠ cfg.adminPassword) := by simp [hauth]
  have h2 : ¬((jsFalsy req.title || jsFalsy req.content) = true) := by
    simp [htitle, hcontent]
  refine ⟨mapDbPost (createdRow now req s.nextId),
    { rows := s.rows ++ [createdRow now req s.nextId]
      nextId := s.nextId + 1
      everAssigned := s.everAssigned ++ [s.nextId] }, ?_, ?_, ?_, ?_⟩
  · unfold createHandler
    rw [if_neg h1, if_neg h2]
  · intro hmem
    exact absurd (hinv.2.1 _ hmem) (lt_irrefl s.nextId)
  · intro i hi
    exact Nat.le_of_lt (hinv.2.1 i hi)
  · refine List.mem_map_of_mem mapDbPost ?_
    refine (sortDesc_perm _).mem_iff.mpr ?_
    exact List.mem_append_right _ (List.mem_singleton.mpr rfl)

/-- C2 witness: a concrete create on the empty database. -/
theorem claim_C2_witness :
    ∃ p s', createHandler cfgDemo 100 reqCreateA initState = (.ok p, s') ∧
      p.id ∉ initState.everAssigned ∧ (∀ i ∈ initState.everAssigned, i ≤ p.id) ∧
      p ∈ listHandler s' :=
  claim_C2 initState Reach.init cfgDemo 100 reqCreateA rfl rfl rfl

/-- A create request with no `adminPassword` field. -/
def reqNoPwd : MutReq :=
  { adminPassword := none, title := some "A", category := none,
    content := some "B", affiliateLink := none, files := [] }

/-- C3 counterexample: when `ADMIN_PASSWORD` is unset in the environment,
`adminPassword !== ADMIN_PASSWORD` compares `undefined` with `undefined`,
so a POST with `adminPassword` omitted is *not* rejected with 401 — it
inserts a row.  This refutes the claim's "wrong **or omitted**" for the
unset-secret configuration. -/
theorem claim_C3_counterexample :
    (createHandler ⟨none⟩ 0 reqNoPwd initState).1 ≠ CreateResp.unauthorized ∧
    (createHandler ⟨none⟩ 0 reqNoPwd initState).2.rows.length = 1 := by
  constructor
  · intro h
    exact CreateResp.noConfusion h
  · rfl

/-- C3 (amended): every mutating request whose supplied admin secret
*differs from the configured secret* gets 401 with the state unchanged; in
particular, whenever an admin secret is configured, a POST with
`adminPassword` omitted gets 401 and inserts no row. -/
theorem claim_C3_thm (cfg : Config) (s : DbState) :
    (∀ now req, req.adminPassword ≠ cfg.adminPassword →
        createHandler cfg now req s = (.unauthorized, s)) ∧
    (∀ now postId req, req.adminPassword ≠ cfg.adminPassword →
        updateHandler cfg now postId req s = (.unauthorized, s)) ∧
    (∀ postId pwd, pwd ≠ cfg.adminPassword →
        deleteHandler cfg postId pwd s = (.unauthorized, s)) ∧
    (∀ secret now req, cfg.adminPassword = some secret → req.adminPassword = none →
        createHandler cfg now req s = (.unauthorized, s)) := by
    refine ⟨?_, ?_, ?_, ?_⟩
    · intro now req hne
      unfold createHandler
      rw [if_pos hne]
    · intro now postId req hne
      unfold updateHandler
      rw [if_pos hne]
    · intro postId pwd hne
      unfold deleteHandler
      rw [if_pos hne]
    · intro secret now req hcfg hreq
      unfold createHandler
      rw [if_pos (by rw [hcfg, hreq]; exact Option.noConfusion)]

/-- A create request with a wrong password. -/
def reqWrongPwd : MutReq :=
  { adminPassword := some "oops", title := some "T", category := none,
    content := some "C", affiliateLink := none, files := [] }

/-- C3 witness: a wrong password on a configured server is rejected and
leaves the state untouched. -/
theorem claim_C3_witness :
    createHandler cfgDemo 0 reqWrongPwd initState = (.unauthorized, initState) :=
  (claim_C3_thm cfgDemo initState).1 0 reqWrongPwd (by decide)

/-- C4: updating an existing post (correct secret, non-empty title and
content) overwrites `title`/`category`/`content`/`affiliate_link`
unconditionally with the supplied values (defaulting to `""` when absent),
keeps `images`/`image_url` byte-for-byte when no new image was uploaded and
replaces them entirely otherwise, sets `updated_at` to the current time,
and leaves `id` and `created_at` unchanged. -/
theorem claim_C4 (s : DbState) (hs : Reach s) (cfg : Config) (now postId : Nat)
    (req : MutReq) (existing : DbRow)
    (hfind : s.rows.find? (fun r => r.id == postId) = some existing)
    (hauth : req.adminPassword = cfg.adminPassword)
    (htitle : jsFalsy req.title = false) (hcontent : jsFalsy req.content = false) :
    ∃ r' s', updateHandler cfg now postId req s = (.ok (mapDbPost r'), s') ∧
      r'.title = req.title.getD "" ∧
      r'.category = some (req.category.getD "") ∧
      r'.content = req.content.getD "" ∧
      r'.affiliate_link = some (req.affiliateLink.getD "") ∧
      r'.updated_at = some now ∧
      r'.id = existing.id ∧
      r'.created_at = existing.created_at ∧
      (newImagePaths req = [] →
        r'.images = existing.images ∧ r'.image_url = existing.image_url) ∧
      (newImagePaths req ≠ [] →
        r'.images = some (Json.arr ((newImagePaths req).map Json.str)) ∧
        r'.image_url = some ((newImagePaths req).headD "")) := by
  have hinv := reach_inv hs
  obtain ⟨⟨xs, hi, hu⟩, _⟩ := hinv.1 existing (List.mem_of_find?_eq_some hfind)
  have h1 : ¬(req.adminPassword ≠ cfg.adminPassword) := by simp [hauth]
  have h2 : ¬((jsFalsy req.title || jsFalsy req.content) = true) := by
    simp [htitle, hcontent]
  refine ⟨applyUpdate req now existing existing,
    ({ s with rows := s.rows.map (fun r => if r.id == postId then applyUpdate req now existing r else r) }),
    ?_, rfl, rfl, rfl, rfl, rfl, rfl, rfl, ?_, ?_⟩
  · unfold updateHandler
    rw [if_neg h1, if_neg h2, hfind]
  · intro hempty
    have hbe : (newImagePaths req).isEmpty = true := by simp [hempty]
    constructor
    · show some (updFinalImages req existing) = existing.images
      rw [updFinalImages, if_pos hbe, hi, normalizeImages_arr]
    · show jsToText (updFinalImageUrl req existing) = existing.image_url
      rw [updFinalImageUrl, if_pos hbe, hi, hu, normalizeImages_arr]
      simp [jsOrElse_headD, jsToText]
  · intro hne
    have hbe : ¬((newImagePaths req).isEmpty = true) := by simp [hne]
    constructor
    · show some (updFinalImages req existing) = _
      rw [updFinalImages, if_neg hbe]
    · show jsToText (updFinalImageUrl req existing) = _
      rw [updFinalImageUrl, if_neg hbe]
      rfl

/-- An update request carrying no new image files. -/
def reqUpdB : MutReq :=
  { adminPassword := some "pw", title := some "A2", category := some "cat",
    content := some "B2", affiliateLink := none, files := [] }

/-- C4 witness: a concrete no-new-images update of the one-post state. -/
theorem claim_C4_witness :
    ∃ r' s', updateHandler cfgDemo 200 1 reqUpdB stateA = (.ok (mapDbPost r'), s') ∧
      r'.title = reqUpdB.title.getD "" ∧
      r'.category = some (reqUpdB.category.getD "") ∧
      r'.content = reqUpdB.content.getD "" ∧
      r'.affiliate_link = some (reqUpdB.affiliateLink.getD "") ∧
      r'.updated_at = some 200 ∧
      r'.id = (createdRow 100 reqCreateA 1).id ∧
      r'.created_at = (createdRow 100 reqCreateA 1).created_at ∧
      (newImagePaths reqUpdB = [] →
        r'.images = (createdRow 100 reqCreateA 1).images ∧
        r'.image_url = (createdRow 100 reqCreateA 1).image_url) ∧
      (newImagePaths reqUpdB ≠ [] →
        r'.images = some (Json.arr ((newImagePaths reqUpdB).map Json.str)) ∧
        r'.image_url = some ((newImagePaths reqUpdB).headD "")) :=
  claim_C4 stateA reachA cfgDemo 200 1 reqUpdB (createdRow 100 reqCreateA 1)
    rfl rfl rfl rfl

/-- Does a JSON value carry the array constructor? -/
def Json.isArr : Json → Bool
  | .arr _ => true
  | _ => false

/-- A stored row whose `images` column is the JSON string `"true"`. -/
def rowBadImages : DbRow :=
  { id := 7, title := "t", category := none, content := "c",
    images := some (Json.str "true"), image_url := none,
    affiliate_link := none, created_at := some 1, updated_at := none }

/-- C5 counterexample: a stored `images` text that parses to a *non-list*
JSON value is kept as parsed, so the API object's `images` field is not a
list — refuting "the resulting API object always exposes images as a
list". -/
theorem claim_C5_counterexample :
    normalizeImages (some (Json.str "true")) = Json.bool true ∧
    ((mapDbPost rowBadImages).images).isArr = false := by
  exact ⟨rfl, rfl⟩

/-- C5 (amended): the stored-to-API normalization returns a native list
as-is; parses a JSON-encoded text and keeps the parse result (which is the
encoded list when the text encodes a list, but is passed through unchanged
— possibly a non-list — otherwise); and maps an unparsable, empty or
whitespace-only string, an absent value, and any non-string non-list value
to the empty list. -/
theorem claim_C5_thm (row : DbRow) :
    (∀ xs, row.images = some (Json.arr xs) → (mapDbPost row).images = Json.arr xs) ∧
    (∀ str, row.images = some (Json.str str) → jsTrim str = "" →
        (mapDbPost row).images = Json.arr []) ∧
    (∀ str, row.images = some (Json.str str) → jsTrim str ≠ "" → jsonParse str = none →
        (mapDbPost row).images = Json.arr []) ∧
    (∀ str v, row.images = some (Json.str str) → jsTrim str ≠ "" → jsonParse str = some v →
        (mapDbPost row).images = v) ∧
    (row.images = none → (mapDbPost row).images = Json.arr []) ∧
    (row.images = some Json.null → (mapDbPost row).images = Json.arr []) ∧
    (∀ b, row.images = some (Json.bool b) → (mapDbPost row).images = Json.arr []) ∧
    (∀ lex, row.images = some (Json.num lex) → (mapDbPost row).images = Json.arr []) ∧
    (∀ ms, row.images = some (Json.obj ms) → (mapDbPost row).images = Json.arr []) := by
  have himg : ∀ j, row.images = j → (mapDbPost row).images = normalizeImages j := by
    intro j hj
    simp [mapDbPost, hj]
  refine ⟨?_, ?_, ?_, ?_, ?_, ?_, ?_, ?_, ?_⟩
  · intro xs h
    rw [himg _ h, normalizeImages_arr]
  · intro str h htrim
    rw [himg _ h]
    simp [normalizeImages, htrim]
  · intro str h htrim hparse
    rw [himg _ h]
    simp [normalizeImages, htrim, hparse]
  · intro str v h htrim hparse
    rw [himg _ h]
    simp [normalizeImages, htrim, hparse]
  · intro h
    rw [himg _ h]
    rfl
  · intro h
    rw [himg _ h]
    rfl
  · intro b h
    rw [himg _ h]
    rfl
  · intro lex h
    rw [himg _ h]
    rfl
  · intro ms h
    rw [himg _ h]
    rfl

/-- A stored row whose `images` column is JSON text encoding a list. -/
def rowStrList : DbRow :=
  { id := 3, title := "t", category := none, content := "c",
    images := some (Json.str "[\"a\"]"), image_url := none,
    affiliate_link := none, created_at := some 1, updated_at := none }

/-- C5 witness: a JSON-encoded list text normalizes to that list. -/
theorem claim_C5_witness : (mapDbPost rowStrList).images = Json.arr [Json.str "a"] :=
  (claim_C5_thm rowStrList).2.2.2.1 "[\"a\"]" (Json.arr [Json.str "a"])
    rfl (by decide) rfl

/-- C6: for every reachable state, the list call returns all stored posts
(a permutation of the mapped rows), all with a creation time, ordered by
creation time non-increasing. -/
theorem claim_C6 (s : DbState) (hs : Reach s) :
    (listHandler s).Perm (s.rows.map mapDbPost) ∧
    (∀ p ∈ listHandler s, p.date.isSome = true) ∧
    (listHandler s).Pairwise
      (fun p q => ∀ x y, p.date = some x → q.date = some y → y ≤ x) := by
  have hinv := reach_inv hs
  refine ⟨(sortDesc_perm s.rows).map mapDbPost, ?_, ?_⟩
  · intro p hp
    rcases List.mem_map.mp hp with ⟨r, hr, rfl⟩
    exact (hinv.1 r ((sortDesc_perm s.rows).subset hr)).2
  · have hpw := sortDesc_sorted s.rows
    unfold listHandler
    rw [List.pairwise_map]
    refine hpw.imp ?_
    intro a b hab x y hx hy
    have hax : a.created_at = some x := hx
    have hby : b.created_at = some y := hy
    unfold caGeB at hab
    rw [hax, hby] at hab
    simpa using hab

/-- C6 witness: the list of the concrete one-post state returns all its
posts. -/
theorem claim_C6_witness : (listHandler stateA).Perm (stateA.rows.map mapDbPost) :=
  (claim_C6 stateA reachA).1

/-- C7: a delete with the correct secret returns 404 and leaves the rows
unchanged when no stored post has the given id; when one exists it responds
ok and removes exactly the posts with that id. -/
theorem claim_C7 (cfg : Config) (s : DbState) (postId : Nat) (pwd : Option String)
    (hauth : pwd = cfg.adminPassword) :
    ((∀ r ∈ s.rows, r.id ≠ postId) → deleteHandler cfg postId pwd s = (.notFound, s)) ∧
    ((∃ r ∈ s.rows, r.id = postId) →
      (deleteHandler cfg postId pwd s).1 = DeleteResp.ok ∧
      (∀ r, r ∈ (deleteHandler cfg postId pwd s).2.rows ↔ r ∈ s.rows ∧ r.id ≠ postId)) := by
  have h1 : ¬(pwd ≠ cfg.adminPassword) := by simp [hauth]
  constructor
  · intro hnone
    unfold deleteHandler
    rw [if_neg h1]
    have hfil : s.rows.filter (fun r => r.id == postId) = [] := by
      rw [List.filter_eq_nil_iff]
      intro r hr
      simpa using hnone r hr
    rw [if_pos (by rw [hfil]; rfl)]
  · intro ⟨r0, hr0, hid⟩
    unfold deleteHandler
    rw [if_neg h1]
    have hmem : r0 ∈ s.rows.filter (fun r => r.id == postId) :=
      List.mem_filter.mpr ⟨hr0, by simpa using hid⟩
    have hne : ¬((s.rows.filter (fun r => r.id == postId)).isEmpty = true) := by
      intro hempty
      rw [List.isEmpty_iff] at hempty
      rw [hempty] at hmem
      exact List.not_mem_nil r0 hmem
    rw [if_neg hne]
    refine ⟨rfl, ?_⟩
    intro r
    simp [List.mem_filter]

/-- C7 witness: deleting an absent id from the concrete one-post state. -/
theorem claim_C7_witness :
    deleteHandler cfgDemo 99 (some "pw") stateA = (.notFound, stateA) :=
  (claim_C7 cfgDemo stateA 99 (some "pw") rfl).1 (by decide)

/-- C8 counterexample: two concurrent uploads of *different* files whose
`Date.now()` millisecond and `Math.round(Math.random()*1e9)` draw coincide
receive the *same* generated name — "concurrently generated names never
collide" does not hold absolutely. -/
theorem claim_C8_counterexample :
    genFilename "images" 1700000000000 123456789 "a.png" =
      genFilename "images" 1700000000000 123456789 "b.png" ∧
    ("a.png" : String) ≠ "b.png" := by
  exact ⟨rfl, by decide⟩

/-- C8 (amended): the generated name is the field name, a timestamp
component and a random component separated by dashes, followed by the
original filename's extension; names collide *only if* both the timestamp
and the random component coincide (distinct pairs give distinct names);
and the recorded path is `/uploads/<generated-name>`. -/
theorem claim_C8_thm :
    (∀ t1 r1 o1 t2 r2 o2, (t1, r1) ≠ (t2, r2) →
        genFilename "images" t1 r1 o1 ≠ genFilename "images" t2 r2 o2) ∧
    (∀ f t r o, ∃ stem : String, genFilename f t r o = stem ++ extname o) ∧
    (∀ req, newImagePaths req = req.files.map (fun fl => "/uploads/" ++ fl.filename)) := by
  refine ⟨?_, ?_, fun _ => rfl⟩
  · intro t1 r1 o1 t2 r2 o2 hne
    exact genFilename_inj "images" t1 r1 o1 t2 r2 o2 hne
  · intro f t r o
    exact ⟨f ++ "-" ++ natToString t ++ "-" ++ natToString r, rfl⟩

/-- C8 witness: distinct (timestamp, random) pairs give distinct names. -/
theorem claim_C8_witness :
    genFilename "images" 1 2 "a.png" ≠ genFilename "images" 1 3 "b.png" :=
  claim_C8_thm.1 1 2 "a.png" 1 3 "b.png" (by decide)

/-- C9: a create or update with the correct secret but missing or empty
title or content responds 400 and leaves the state untouched. -/
theorem claim_C9 (cfg : Config) (s : DbState) :
    (∀ now req, req.adminPassword = cfg.adminPassword →
        (jsFalsy req.title = true ∨ jsFalsy req.content = true) →
        createHandler cfg now req s = (.badRequest, s)) ∧
    (∀ now postId req, req.adminPassword = cfg.adminPassword →
        (jsFalsy req.title = true ∨ jsFalsy req.content = true) →
        updateHandler cfg now postId req s = (.badRequest, s)) := by
  constructor
  · intro now req hauth hval
    unfold createHandler
    rw [if_neg (by simp [hauth]), if_pos (by rcases hval with h | h <;> simp [h])]
  · intro now postId req hauth hval
    unfold updateHandler
    rw [if_neg (by simp [hauth]), if_pos (by rcases hval with h | h <;> simp [h])]

/-- A create request with the correct secret but no title. -/
def reqMissingTitle : MutReq :=
  { adminPassword := some "pw", title := none, category := none,
    content := some "B", affiliateLink := none, files := [] }

/-- C9 witness: missing title with the correct secret is a 400 on an
unchanged state. -/
theorem claim_C9_witness :
    createHandler cfgDemo 0 reqMissingTitle initState = (.badRequest, initState) :=
  (claim_C9 cfgDemo initState).1 0 reqMissingTitle rfl (Or.inl rfl)

/-- C10: the admin gate runs before validation — a create or update whose
secret does not equal the configured one and whose title or content is also
missing responds 401 (not 400), leaving the state untouched. -/
theorem claim_C10 (cfg : Config) (s : DbState) :
    (∀ now req, req.adminPassword ≠ cfg.adminPassword →
        (jsFalsy req.title = true ∨ jsFalsy req.content = true) →
        createHandler cfg now req s = (.unauthorized, s)) ∧
    (∀ now postId req, req.adminPassword ≠ cfg.adminPassword →
        (jsFalsy req.title = true ∨ jsFalsy req.content = true) →
        updateHandler cfg now postId req s = (.unauthorized, s)) := by
  constructor
  · intro now req hne _
    unfold createHandler
    rw [if_pos hne]
  · intro now postId req hne _
    unfold updateHandler
    rw [if_pos hne]

/-- A request with both a wrong password and a missing title. -/
def reqWrongPwdNoTitle : MutReq :=
  { adminPassword := some "x", title := none, category := none,
    content := none, affiliateLink := none, files := [] }

/-- C10 witness: wrong password and missing title yield 401, not 400. -/
theorem claim_C10_witness :
    createHandler cfgDemo 0 reqWrongPwdNoTitle initState = (.unauthorized, initState) :=
  (claim_C10 cfgDemo initState).1 0 reqWrongPwdNoTitle (by decide) (Or.inl rfl)

end SeansHub
